import Mathlib

/-!
# Verification of the rule-evaluation engine (complexity counters and
# shadow-attribute detection) of a Python style-guide analyzer.

We give a shallow embedding of the Python AST fragment the rules operate on,
translate the rule visitors from
`wemake_python_styleguide/visitors/ast/complexity/counts.py`, and prove the
spec's testable properties about them.  Node identity (Python `is`, dict
keys, `in`) is modelled by structural equality; on the trees our theorems
quantify over, all relevant nodes are pairwise structurally distinct, so the
two notions agree.
-/

namespace StyleGuide

/-- Comparison operators of a chained comparison (`ast.cmpop`). -/
inductive CmpOp
  | eq
  | notEq
  | lt
  | ltE
  | gt
  | gtE
  | isOp
  | inOp
deriving DecidableEq, Repr

/-- Kind of a boolean combination (`ast.boolop`). -/
inductive BoolOpKind
  | bAnd
  | bOr
deriving DecidableEq, Repr

/-- Expressions of the Python AST fragment used by the rules. -/
inductive Expr
  | name (id : String)
  | attr (base : Expr) (attrName : String)
  | subscript (base : Expr) (index : Expr)
  | call (func : Expr) (args : List Expr)
  | boolOp (kind : BoolOpKind) (values : List Expr)
  | compare (left : Expr) (ops : List CmpOp) (comparators : List Expr)
  | tuple (elts : List Expr)
  | intLit (value : Int)

mutual

/-- Structural equality on expressions, modelling Python node equality. -/
def beqExpr : Expr → Expr → Bool
  | .name a, .name b => a == b
  | .attr b₁ a₁, .attr b₂ a₂ => beqExpr b₁ b₂ && a₁ == a₂
  | .subscript b₁ i₁, .subscript b₂ i₂ => beqExpr b₁ b₂ && beqExpr i₁ i₂
  | .call f₁ a₁, .call f₂ a₂ => beqExpr f₁ f₂ && beqExprList a₁ a₂
  | .boolOp k₁ v₁, .boolOp k₂ v₂ => k₁ == k₂ && beqExprList v₁ v₂
  | .compare l₁ o₁ c₁, .compare l₂ o₂ c₂ =>
      beqExpr l₁ l₂ && o₁ == o₂ && beqExprList c₁ c₂
  | .tuple e₁, .tuple e₂ => beqExprList e₁ e₂
  | .intLit a, .intLit b => a == b
  | _, _ => false
termination_by structural a b => a

def beqExprList : List Expr → List Expr → Bool
  | [], [] => true
  | e :: es, f :: fs => beqExpr e f && beqExprList es fs
  | _, _ => false
termination_by structural a b => a

end

mutual

theorem beqExpr_iff : (a b : Expr) → (beqExpr a b = true ↔ a = b)
  | .name x, b => by cases b <;> simp [beqExpr]
  | .attr b₁ s₁, b => by
      cases b <;> simp [beqExpr]
      case attr b₂ s₂ => rw [beqExpr_iff b₁ b₂]; tauto
  | .subscript b₁ i₁, b => by
      cases b <;> simp [beqExpr]
      case subscript b₂ i₂ => rw [beqExpr_iff b₁ b₂, beqExpr_iff i₁ i₂]
  | .call f₁ a₁, b => by
      cases b <;> simp [beqExpr]
      case call f₂ a₂ => rw [beqExpr_iff f₁ f₂, beqExprList_iff a₁ a₂]
  | .boolOp k₁ v₁, b => by
      cases b <;> simp [beqExpr]
      case boolOp k₂ v₂ => rw [beqExprList_iff v₁ v₂]; tauto
  | .compare l₁ o₁ c₁, b => by
      cases b <;> simp [beqExpr]
      case compare l₂ o₂ c₂ =>
        rw [beqExpr_iff l₁ l₂, beqExprList_iff c₁ c₂]; tauto
  | .tuple e₁, b => by
      cases b <;> simp [beqExpr]
      case tuple e₂ => rw [beqExprList_iff e₁ e₂]
  | .intLit x, b => by cases b <;> simp [beqExpr]
termination_by structural a b => a

theorem beqExprList_iff : (a b : List Expr) → (beqExprList a b = true ↔ a = b)
  | [], b => by cases b <;> simp [beqExprList]
  | e :: es, b => by
      cases b <;> simp [beqExprList]
      case cons f fs => rw [beqExpr_iff e f, beqExprList_iff es fs]
termination_by structural a b => a

end

instance : DecidableEq Expr := fun a b =>
  decidable_of_iff (beqExpr a b = true) (beqExpr_iff a b)

/-- Statements of the Python AST fragment used by the rules.  An exception
handler (`ast.ExceptHandler`) is a pair of its optional `type` expression
and its body. -/
inductive Stmt
  | assign (targets : List Expr) (value : Expr)
  | annAssign (target : Expr) (annot : Expr) (value : Option Expr)
  | exprStmt (value : Expr)
  | ret (value : Option Expr)
  | funcDef (isAsync : Bool) (fname : String) (args : List String)
      (decoratorList : List Expr) (body : List Stmt)
  | classDef (cname : String) (decoratorList : List Expr) (body : List Stmt)
  | ifStmt (test : Expr) (body : List Stmt) (orelse : List Stmt)
  | whileStmt (test : Expr) (body : List Stmt) (orelse : List Stmt)
  | forStmt (target : Expr) (iterExpr : Expr) (body : List Stmt)
      (orelse : List Stmt)
  | withStmt (ctxExpr : Expr) (body : List Stmt)
  | tryStmt (body : List Stmt) (handlers : List (Option Expr × List Stmt))
      (orelse : List Stmt) (finalbody : List Stmt)
  | pass

mutual

/-- Structural equality on statements, modelling Python node equality. -/
def beqStmt : Stmt → Stmt → Bool
  | .assign t₁ v₁, .assign t₂ v₂ => beqExprList t₁ t₂ && beqExpr v₁ v₂
  | .annAssign t₁ a₁ v₁, .annAssign t₂ a₂ v₂ =>
      beqExpr t₁ t₂ && beqExpr a₁ a₂ && v₁ == v₂
  | .exprStmt v₁, .exprStmt v₂ => beqExpr v₁ v₂
  | .ret v₁, .ret v₂ => v₁ == v₂
  | .funcDef y₁ n₁ a₁ d₁ b₁, .funcDef y₂ n₂ a₂ d₂ b₂ =>
      y₁ == y₂ && n₁ == n₂ && a₁ == a₂ && beqExprList d₁ d₂ &&
        beqStmtList b₁ b₂
  | .classDef n₁ d₁ b₁, .classDef n₂ d₂ b₂ =>
      n₁ == n₂ && beqExprList d₁ d₂ && beqStmtList b₁ b₂
  | .ifStmt t₁ b₁ o₁, .ifStmt t₂ b₂ o₂ =>
      beqExpr t₁ t₂ && beqStmtList b₁ b₂ && beqStmtList o₁ o₂
  | .whileStmt t₁ b₁ o₁, .whileStmt t₂ b₂ o₂ =>
      beqExpr t₁ t₂ && beqStmtList b₁ b₂ && beqStmtList o₁ o₂
  | .forStmt t₁ i₁ b₁ o₁, .forStmt t₂ i₂ b₂ o₂ =>
      beqExpr t₁ t₂ && beqExpr i₁ i₂ && beqStmtList b₁ b₂ &&
        beqStmtList o₁ o₂
  | .withStmt c₁ b₁, .withStmt c₂ b₂ => beqExpr c₁ c₂ && beqStmtList b₁ b₂
  | .tryStmt b₁ h₁ o₁ f₁, .tryStmt b₂ h₂ o₂ f₂ =>
      beqStmtList b₁ b₂ && beqHandlerList h₁ h₂ && beqStmtList o₁ o₂ &&
        beqStmtList f₁ f₂
  | .pass, .pass => true
  | _, _ => false
termination_by structural a b => a

def beqStmtList : List Stmt → List Stmt → Bool
  | [], [] => true
  | s :: ss, r :: rs => beqStmt s r && beqStmtList ss rs
  | _, _ => false
termination_by structural a b => a

def beqHandlerList :
    List (Option Expr × List Stmt) → List (Option Expr × List Stmt) → Bool
  | [], [] => true
  | (t₁, b₁) :: hs, (t₂, b₂) :: gs =>
      t₁ == t₂ && beqStmtList b₁ b₂ && beqHandlerList hs gs
  | _, _ => false
termination_by structural a b => a

end

set_option maxHeartbeats 1600000 in
mutual

theorem beqStmt_iff : (a b : Stmt) → (beqStmt a b = true ↔ a = b)
  | .assign t₁ v₁, b => by
      cases b <;> simp [beqStmt]
      case assign t₂ v₂ => rw [beqExprList_iff t₁ t₂, beqExpr_iff v₁ v₂]
  | .annAssign t₁ a₁ v₁, b => by
      cases b <;> simp [beqStmt]
      case annAssign t₂ a₂ v₂ =>
        rw [beqExpr_iff t₁ t₂, beqExpr_iff a₁ a₂]; tauto
  | .exprStmt v₁, b => by
      cases b <;> simp [beqStmt]
      case exprStmt v₂ => rw [beqExpr_iff v₁ v₂]
  | .ret v₁, b => by cases b <;> simp [beqStmt]
  | .funcDef y₁ n₁ a₁ d₁ b₁, b => by
      cases b <;> simp [beqStmt]
      case funcDef y₂ n₂ a₂ d₂ b₂ =>
        rw [beqExprList_iff d₁ d₂, beqStmtList_iff b₁ b₂]; tauto
  | .classDef n₁ d₁ b₁, b => by
      cases b <;> simp [beqStmt]
      case classDef n₂ d₂ b₂ =>
        rw [beqExprList_iff d₁ d₂, beqStmtList_iff b₁ b₂]; tauto
  | .ifStmt t₁ b₁ o₁, b => by
      cases b <;> simp [beqStmt]
      case ifStmt t₂ b₂ o₂ =>
        rw [beqExpr_iff t₁ t₂, beqStmtList_iff b₁ b₂, beqStmtList_iff o₁ o₂]
        tauto
  | .whileStmt t₁ b₁ o₁, b => by
      cases b <;> simp [beqStmt]
      case whileStmt t₂ b₂ o₂ =>
        rw [beqExpr_iff t₁ t₂, beqStmtList_iff b₁ b₂, beqStmtList_iff o₁ o₂]
        tauto
  | .forStmt t₁ i₁ b₁ o₁, b => by
      cases b <;> simp [beqStmt]
      case forStmt t₂ i₂ b₂ o₂ =>
        rw [beqExpr_iff t₁ t₂, beqExpr_iff i₁ i₂, beqStmtList_iff b₁ b₂,
          beqStmtList_iff o₁ o₂]
        tauto
  | .withStmt c₁ b₁, b => by
      cases b <;> simp [beqStmt]
      case withStmt c₂ b₂ => rw [beqExpr_iff c₁ c₂, beqStmtList_iff b₁ b₂]
  | .tryStmt b₁ h₁ o₁ f₁, b => by
      cases b <;> simp [beqStmt]
      case tryStmt b₂ h₂ o₂ f₂ =>
        rw [beqStmtList_iff b₁ b₂, beqHandlerList_iff h₁ h₂,
          beqStmtList_iff o₁ o₂, beqStmtList_iff f₁ f₂]
        tauto
  | .pass, b => by cases b <;> simp [beqStmt]
termination_by structural a b => a

theorem beqStmtList_iff : (a b : List Stmt) → (beqStmtList a b = true ↔ a = b)
  | [], b => by cases b <;> simp [beqStmtList]
  | s :: ss, b => by
      cases b <;> simp [beqStmtList]
      case cons r rs => rw [beqStmt_iff s r, beqStmtList_iff ss rs]
termination_by structural a b => a

theorem beqHandlerList_iff :
    (a b : List (Option Expr × List Stmt)) → (beqHandlerList a b = true ↔ a = b)
  | [], b => by cases b <;> simp [beqHandlerList]
  | (t₁, b₁) :: hs, b => by
      cases b <;> simp [beqHandlerList]
      case cons hd gs =>
        obtain ⟨t₂, b₂⟩ := hd
        simp [beqHandlerList]
        rw [beqStmtList_iff b₁ b₂, beqHandlerList_iff hs gs]
termination_by structural a b => a

end

instance : DecidableEq Stmt := fun a b =>
  decidable_of_iff (beqStmt a b = true) (beqStmt_iff a b)

/-- A single exception handler clause: optional type expression and body. -/
abbrev Handler := Option Expr × List Stmt

/-- User-overridable numeric thresholds (the `Options` configuration). -/
structure Options where
  max_decorators : Nat
  max_module_members : Nat
  max_try_body_length : Nat
  max_lines_in_finally : Nat
  max_except_exceptions : Nat
deriving DecidableEq, Repr

/-- Compiled-in structural constants (`constants.MAX_*`), not overridable.
They live outside the sources under verification, so we keep their values
abstract and quantify over them. -/
structure Constants where
  MAX_CONDITIONS : Nat
  MAX_COMPARES : Nat
  MAX_ELIFS : Nat
  MAX_EXCEPT_CASES : Nat
deriving DecidableEq, Repr

/-- Immutable diagnostic records: one constructor per violation class the
embedded rules can emit, carrying the anchor node and the substitution
text (a name or a decimal count). -/
inductive Violation
  | tooManyDecorators (anchor : Stmt) (count : Nat)
  | tooManyModuleMembers (count : Nat)
  | tooManyConditions (anchor : Expr) (count : Nat)
  | tooLongCompare (anchor : Expr) (count : Nat)
  | tooManyElifs (anchor : Stmt) (count : Nat)
  | tooManyExceptCases (anchor : Stmt) (count : Nat)
  | tooLongTryBody (anchor : Stmt) (count : Nat)
  | tooLongFinallyBody (anchor : Stmt) (count : Nat)
  | tooManyExceptExceptions (anchor : Handler) (count : Nat)
  | shadowedClassAttribute (attrName : String)
deriving DecidableEq

/-! ## `ConditionsVisitor` (counts.py lines 79-129) -/

/-- `values` field accessor of a `BoolOp` node. -/
def Expr.values : Expr → List Expr
  | .boolOp _ vs => vs
  | _ => []

mutual

/-- Contribution of a single child of `node.values` inside
`ConditionsVisitor._count_conditions`: a child that is itself a boolean
combination (of either kind) contributes its own recursive count, any other
child contributes `1`. -/
def count_condition : Expr → Nat
  | .boolOp _ inner => count_conditions_values inner
  | _ => 1
termination_by structural e => e

/-- `ConditionsVisitor._count_conditions`, expressed on the `values` list of
a `BoolOp` node. -/
def count_conditions_values : List Expr → Nat
  | [] => 0
  | cond :: rest => count_condition cond + count_conditions_values rest
termination_by structural l => l

end

/-- `ConditionsVisitor._count_conditions` applied to a `BoolOp` node. -/
def count_conditions (node : Expr) : Nat :=
  count_conditions_values node.values

/-- `ConditionsVisitor._check_conditions`: emit `TooManyConditionsViolation`
anchored at the node, with the count as text, when the count exceeds
`constants.MAX_CONDITIONS`. -/
def check_conditions (MAX_CONDITIONS : Nat) (node : Expr) : Option Violation :=
  let conditions_count := count_conditions node
  if conditions_count > MAX_CONDITIONS then
    some (.tooManyConditions node conditions_count)
  else none

/-- `isinstance(op, ast.Eq)`. -/
def CmpOp.isEq : CmpOp → Bool
  | .eq => true
  | _ => false

/-- `isinstance(op, ast.NotEq)`. -/
def CmpOp.isNotEq : CmpOp → Bool
  | .notEq => true
  | _ => false

/-- `ConditionsVisitor._check_compares`: the threshold is
`constants.MAX_COMPARES`, raised by one when all operators are `==` or all
operators are `!=`; emit `TooLongCompareViolation` anchored at the node when
the operator count exceeds the threshold. -/
def check_compares (MAX_COMPARES : Nat) (node : Expr) : Option Violation :=
  match node with
  | .compare left ops comparators =>
      let is_all_equals := ops.all CmpOp.isEq
      let is_all_notequals := ops.all CmpOp.isNotEq
      let can_be_longer := is_all_notequals || is_all_equals
      let threshold := if can_be_longer then MAX_COMPARES + 1 else MAX_COMPARES
      if ops.length > threshold then
        some (.tooLongCompare (.compare left ops comparators) ops.length)
      else none
  | _ => none

mutual

/-- One traversal of the `ConditionsVisitor` over an expression: the
`visit_BoolOp` / `visit_Compare` handlers fire before the subtree is
traversed, and traversal always continues into children (field order of
the Python AST). -/
def conditions_visit_expr (c : Constants) : Expr → List Violation
  | .name _ => []
  | .attr base _ => conditions_visit_expr c base
  | .subscript base index =>
      conditions_visit_expr c base ++ conditions_visit_expr c index
  | .call func args =>
      conditions_visit_expr c func ++ conditions_visit_exprs c args
  | .boolOp kind values =>
      (check_conditions c.MAX_CONDITIONS (.boolOp kind values)).toList ++
        conditions_visit_exprs c values
  | .compare left ops comparators =>
      (check_compares c.MAX_COMPARES (.compare left ops comparators)).toList ++
        conditions_visit_expr c left ++ conditions_visit_exprs c comparators
  | .tuple elts => conditions_visit_exprs c elts
  | .intLit _ => []
termination_by structural e => e

def conditions_visit_exprs (c : Constants) : List Expr → List Violation
  | [] => []
  | e :: es => conditions_visit_expr c e ++ conditions_visit_exprs c es
termination_by structural l => l

end

/-- `isinstance(condition, ast.BoolOp)`. -/
def Expr.isBoolOp : Expr → Bool
  | .boolOp _ _ => true
  | _ => false

mutual

/-- One child's contribution under the spec's same-kind-only reading (see
`count_conditions_same_kind`). -/
def count_condition_same_kind (kind : BoolOpKind) : Expr → Nat
  | .boolOp k inner =>
      if k = kind then count_conditions_same_kind kind inner else 1
  | _ => 1
termination_by structural e => e

/-- The counting described by the spec's words for the boolean-conditions
rule: flattened leaf operand count "recursing only into nested combinations
of the same kind", a differently-kinded nested combination counting as one
unit.  Stated only for comparison with `count_conditions_values`, which is
the translation of the source. -/
def count_conditions_same_kind (kind : BoolOpKind) : List Expr → Nat
  | [] => 0
  | cond :: rest =>
      count_condition_same_kind kind cond +
        count_conditions_same_kind kind rest
termination_by structural l => l

end

/-! ## `TryExceptVisitor` (counts.py lines 179-241) -/

/-- `TryExceptVisitor._check_except_count`: too many handler clauses on one
exception block. -/
def check_except_count (c : Constants) (node : Stmt) (handlers : List Handler) :
    Option Violation :=
  if handlers.length > c.MAX_EXCEPT_CASES then
    some (.tooManyExceptCases node handlers.length)
  else none

/-- `TryExceptVisitor._check_try_body_length`. -/
def check_try_body_length (o : Options) (node : Stmt) (body : List Stmt) :
    Option Violation :=
  if body.length > o.max_try_body_length then
    some (.tooLongTryBody node body.length)
  else none

/-- `TryExceptVisitor._check_finally_body_length`. -/
def check_finally_body_length (o : Options) (node : Stmt)
    (finalbody : List Stmt) : Option Violation :=
  if finalbody.length > o.max_lines_in_finally then
    some (.tooLongFinallyBody node finalbody.length)
  else none

/-- `TryExceptVisitor._check_exceptions_count`: for each handler of the
block, when the handler's `type` expression is literally a tuple whose
element count exceeds `max_except_exceptions`, emit one violation anchored
at that handler; any other shape of the `type` field produces nothing. -/
def check_exceptions_count (o : Options) : List Handler → List Violation
  | [] => []
  | except_handler :: rest =>
      (match except_handler.1 with
        | some (.tuple elts) =>
            if elts.length > o.max_except_exceptions then
              [Violation.tooManyExceptExceptions except_handler elts.length]
            else []
        | _ => []) ++ check_exceptions_count o rest

mutual

/-- One traversal of the `TryExceptVisitor`: the `visit_any_try` handler
fires at every `try` node (running its four checks in source order) and
traversal continues into all children. -/
def tryexcept_visit_stmt (c : Constants) (o : Options) : Stmt → List Violation
  | .tryStmt body handlers orelse finalbody =>
      (check_except_count c (.tryStmt body handlers orelse finalbody)
          handlers).toList ++
        (check_try_body_length o (.tryStmt body handlers orelse finalbody)
          body).toList ++
        (check_finally_body_length o
          (.tryStmt body handlers orelse finalbody) finalbody).toList ++
        check_exceptions_count o handlers ++
        tryexcept_visit_stmts c o body ++
        tryexcept_visit_handlers c o handlers ++
        tryexcept_visit_stmts c o orelse ++
        tryexcept_visit_stmts c o finalbody
  | .funcDef _ _ _ _ body => tryexcept_visit_stmts c o body
  | .classDef _ _ body => tryexcept_visit_stmts c o body
  | .ifStmt _ body orelse =>
      tryexcept_visit_stmts c o body ++ tryexcept_visit_stmts c o orelse
  | .whileStmt _ body orelse =>
      tryexcept_visit_stmts c o body ++ tryexcept_visit_stmts c o orelse
  | .forStmt _ _ body orelse =>
      tryexcept_visit_stmts c o body ++ tryexcept_visit_stmts c o orelse
  | .withStmt _ body => tryexcept_visit_stmts c o body
  | _ => []
termination_by structural s => s

def tryexcept_visit_stmts (c : Constants) (o : Options) :
    List Stmt → List Violation
  | [] => []
  | s :: ss => tryexcept_visit_stmt c o s ++ tryexcept_visit_stmts c o ss
termination_by structural l => l

def tryexcept_visit_handlers (c : Constants) (o : Options) :
    List Handler → List Violation
  | [] => []
  | (_, b) :: hs =>
      tryexcept_visit_stmts c o b ++ tryexcept_visit_handlers c o hs
termination_by structural l => l

end

/-- Whether a violation is a `TooManyExceptExceptionsViolation`. -/
def Violation.isExceptExceptions : Violation → Bool
  | .tooManyExceptExceptions _ _ => true
  | _ => false

mutual

/-- All `try` statements of a tree, in traversal (pre-)order. -/
def all_tries_stmt : Stmt → List Stmt
  | .tryStmt body handlers orelse finalbody =>
      .tryStmt body handlers orelse finalbody ::
        (all_tries_stmts body ++ all_tries_handlers handlers ++
          all_tries_stmts orelse ++ all_tries_stmts finalbody)
  | .funcDef _ _ _ _ body => all_tries_stmts body
  | .classDef _ _ body => all_tries_stmts body
  | .ifStmt _ body orelse => all_tries_stmts body ++ all_tries_stmts orelse
  | .whileStmt _ body orelse =>
      all_tries_stmts body ++ all_tries_stmts orelse
  | .forStmt _ _ body orelse =>
      all_tries_stmts body ++ all_tries_stmts orelse
  | .withStmt _ body => all_tries_stmts body
  | _ => []
termination_by structural s => s

def all_tries_stmts : List Stmt → List Stmt
  | [] => []
  | s :: ss => all_tries_stmt s ++ all_tries_stmts ss
termination_by structural l => l

def all_tries_handlers : List Handler → List Stmt
  | [] => []
  | (_, b) :: hs => all_tries_stmts b ++ all_tries_handlers hs
termination_by structural l => l

end

/-- The handler list of a statement (empty for non-`try` statements). -/
def Stmt.handlersOf : Stmt → List Handler
  | .tryStmt _ handlers _ _ => handlers
  | _ => []

/-- Whether a handler's `type` expression is literally a tuple. -/
def Handler.typeIsTuple : Handler → Bool
  | (some (.tuple _), _) => true
  | _ => false

/-! ## `ModuleMembersVisitor` (counts.py lines 22-76) -/

/-- The kind of the nearest enclosing lexical scope of a node, the result
of `get_context`.  Modelled from the spec: `logic/nodes.py` is outside the
sources under verification; spec section 4.1 specifies scope resolution as
a top-down pass threading the current scope, where entering a class or
function body opens a new scope and all other compound statements do not.
Only the module / class / function distinction is consumed by the rules. -/
inductive Ctx
  | module
  | cls
  | fn
deriving DecidableEq

/-- Modelled from the spec: `decorators.has_overload_decorator`
(`logic/tree/decorators.py`) is outside the sources under verification.
The spec excludes declarations "whose sole purpose is stating a call
signature (interface-overload marker, no real body)"; we model the marker
as a decorator whose resolved identifier is exactly `overload`, written
bare or as a dotted attribute access. -/
def is_overload_decorator : Expr → Bool
  | .name x => x == "overload"
  | .attr _ x => x == "overload"
  | _ => false

/-- Modelled from the spec: a declaration carries the interface-overload
marker when some decorator resolves to it (see `is_overload_decorator`). -/
def has_overload_decorator (decoratorList : List Expr) : Bool :=
  decoratorList.any is_overload_decorator

/-- `decorator_list` field of a declaration (empty on other statements). -/
def Stmt.decorator_list : Stmt → List Expr
  | .funcDef _ _ _ d _ => d
  | .classDef _ d _ => d
  | _ => []

/-- `isinstance(node, FunctionNodes)`: synchronous and asynchronous
function declarations. -/
def Stmt.isFunctionNode : Stmt → Bool
  | .funcDef _ _ _ _ _ => true
  | _ => false

/-- `ModuleMembersVisitor._check_decorators_count`: emitted immediately at
the declaration node, whatever its enclosing scope. -/
def check_decorators_count (o : Options) (node : Stmt) : Option Violation :=
  if node.decorator_list.length > o.max_decorators then
    some (.tooManyDecorators node node.decorator_list.length)
  else none

/-- `ModuleMembersVisitor._check_members_count` as the increment it applies
to `_public_items_count`: nothing unless the node's context is the module;
nothing for a function declaration carrying the overload marker; one
otherwise. -/
def members_count_increment (ctx : Ctx) (node : Stmt) : Nat :=
  if ctx = Ctx.module then
    if node.isFunctionNode && has_overload_decorator node.decorator_list then
      0
    else 1
  else 0

/-- Mutable state of one `ModuleMembersVisitor` run: the accumulated
`_public_items_count` and the violations added so far. -/
structure MMState where
  public_items_count : Nat
  violations : List Violation
deriving DecidableEq

mutual

/-- One traversal of the `ModuleMembersVisitor`: `visit_module_members`
fires at every class/function declaration (decorator check first, then the
member-count update), then traversal continues into the body with the
scope opened by the declaration; other compound statements keep the
current scope. -/
def module_members_visit_stmt (o : Options) (s : Stmt) (ctx : Ctx)
    (st : MMState) : MMState :=
  match s with
  | .funcDef a n ags d b =>
      let node := Stmt.funcDef a n ags d b
      let st := MMState.mk st.public_items_count
        (st.violations ++ (check_decorators_count o node).toList)
      let st := MMState.mk
        (st.public_items_count + members_count_increment ctx node)
        st.violations
      module_members_visit_stmts o b .fn st
  | .classDef n d b =>
      let node := Stmt.classDef n d b
      let st := MMState.mk st.public_items_count
        (st.violations ++ (check_decorators_count o node).toList)
      let st := MMState.mk
        (st.public_items_count + members_count_increment ctx node)
        st.violations
      module_members_visit_stmts o b .cls st
  | .ifStmt _ b e =>
      module_members_visit_stmts o e ctx
        (module_members_visit_stmts o b ctx st)
  | .whileStmt _ b e =>
      module_members_visit_stmts o e ctx
        (module_members_visit_stmts o b ctx st)
  | .forStmt _ _ b e =>
      module_members_visit_stmts o e ctx
        (module_members_visit_stmts o b ctx st)
  | .withStmt _ b => module_members_visit_stmts o b ctx st
  | .tryStmt b hs e f =>
      module_members_visit_stmts o f ctx
        (module_members_visit_stmts o e ctx
          (module_members_visit_handlers o hs ctx
            (module_members_visit_stmts o b ctx st)))
  | _ => st
termination_by structural s

def module_members_visit_stmts (o : Options) (ss : List Stmt) (ctx : Ctx)
    (st : MMState) : MMState :=
  match ss with
  | [] => st
  | s :: rest =>
      module_members_visit_stmts o rest ctx
        (module_members_visit_stmt o s ctx st)
termination_by structural ss

def module_members_visit_handlers (o : Options)
    (hs : List (Option Expr × List Stmt)) (ctx : Ctx) (st : MMState) :
    MMState :=
  match hs with
  | [] => st
  | (_, b) :: rest =>
      module_members_visit_handlers o rest ctx
        (module_members_visit_stmts o b ctx st)
termination_by structural hs

end

/-- A full `ModuleMembersVisitor` run over a module: fresh state, one
traversal, then `_post_visit` appends the `TooManyModuleMembersViolation`
when the accumulated count exceeds the option. -/
def module_members_run (o : Options) (tree : List Stmt) : List Violation :=
  let st := module_members_visit_stmts o tree .module ⟨0, []⟩
  st.violations ++
    (if st.public_items_count > o.max_module_members then
      [Violation.tooManyModuleMembers st.public_items_count]
    else [])

mutual

/-- The class/function declarations whose enclosing scope is the module:
reachable from the module body without crossing a class or function body
(conditionals, loops, `with` and `try` blocks open no scope). -/
def module_scope_decls_stmt : Stmt → List Stmt
  | .funcDef a n ags d b => [.funcDef a n ags d b]
  | .classDef n d b => [.classDef n d b]
  | .ifStmt _ b e => module_scope_decls b ++ module_scope_decls e
  | .whileStmt _ b e => module_scope_decls b ++ module_scope_decls e
  | .forStmt _ _ b e => module_scope_decls b ++ module_scope_decls e
  | .withStmt _ b => module_scope_decls b
  | .tryStmt b hs e f =>
      module_scope_decls b ++ module_scope_decls_handlers hs ++
        module_scope_decls e ++ module_scope_decls f
  | _ => []
termination_by structural s => s

def module_scope_decls : List Stmt → List Stmt
  | [] => []
  | s :: rest => module_scope_decls_stmt s ++ module_scope_decls rest
termination_by structural l => l

def module_scope_decls_handlers : List (Option Expr × List Stmt) → List Stmt
  | [] => []
  | (_, b) :: rest => module_scope_decls b ++ module_scope_decls_handlers rest
termination_by structural l => l

end

mutual

/-- Every class/function declaration of a tree, at any depth and in any
scope, in traversal (pre-)order. -/
def all_decls_stmt : Stmt → List Stmt
  | .funcDef a n ags d b => .funcDef a n ags d b :: all_decls b
  | .classDef n d b => .classDef n d b :: all_decls b
  | .ifStmt _ b e => all_decls b ++ all_decls e
  | .whileStmt _ b e => all_decls b ++ all_decls e
  | .forStmt _ _ b e => all_decls b ++ all_decls e
  | .withStmt _ b => all_decls b
  | .tryStmt b hs e f =>
      all_decls b ++ all_decls_handlers hs ++ all_decls e ++ all_decls f
  | _ => []
termination_by structural s => s

def all_decls : List Stmt → List Stmt
  | [] => []
  | s :: rest => all_decls_stmt s ++ all_decls rest
termination_by structural l => l

def all_decls_handlers : List (Option Expr × List Stmt) → List Stmt
  | [] => []
  | (_, b) :: rest => all_decls b ++ all_decls_handlers rest
termination_by structural l => l

end

/-- A declaration that counts toward the module-member total: any class,
and any function not carrying the overload marker. -/
def countable_decl (node : Stmt) : Bool :=
  !(node.isFunctionNode && has_overload_decorator node.decorator_list)

/-- Whether a violation is a `TooManyDecoratorsViolation`. -/
def Violation.isDecorators : Violation → Bool
  | .tooManyDecorators _ _ => true
  | _ => false

/-! ## `ElifVisitor` (counts.py lines 132-176)

Python's `ast.If` objects are compared by identity in `_if_children`; we
model identity by structural equality, which coincides with identity on
the strictly nested conditionals of one cascade. -/

/-- `isinstance(if_node, ast.If)`. -/
def Stmt.isIf : Stmt → Bool
  | .ifStmt _ _ _ => true
  | _ => false

/-- `orelse` field of an `if` statement. -/
def Stmt.orelse : Stmt → List Stmt
  | .ifStmt _ _ e => e
  | _ => []

/-- The `_if_children` mapping: an insertion-ordered association list from
a root `if` node to the accumulated member list below it
(`defaultdict(list)`). -/
abbrev IfChildren := List (Stmt × List Stmt)

/-- `ElifVisitor._get_root_if_node`: the first recorded root whose member
list contains the node; a node found in no record becomes its own root. -/
def get_root_if_node (m : IfChildren) (node : Stmt) : Stmt :=
  match m with
  | [] => node
  | (root, children) :: rest =>
      if node ∈ children then root else get_root_if_node rest node

/-- `defaultdict` access plus append: extend the member list of `key`,
creating the entry (initially empty) if missing. -/
def append_children (m : IfChildren) (key : Stmt) (extra : List Stmt) :
    IfChildren :=
  match m with
  | [] => [(key, extra)]
  | (k, v) :: rest =>
      if k = key then (k, v ++ extra) :: rest
      else (k, v) :: append_children rest key extra

/-- `ElifVisitor._update_if_child`: append the node itself (unless it is
the root) and then every statement of the node's `orelse` branch to the
root's member list. -/
def update_if_child (m : IfChildren) (root node : Stmt) : IfChildren :=
  append_children m root
    ((if node = root then [] else [node]) ++ node.orelse)

/-- `ElifVisitor._check_elifs`: when the node's alternative branch consists
entirely of `if` nodes, locate the node's root and record the node and its
alternative conditionals under that root. -/
def check_elifs (m : IfChildren) (node : Stmt) : IfChildren :=
  let has_elif := node.orelse.all Stmt.isIf
  if has_elif then update_if_child m (get_root_if_node m node) node
  else m

mutual

/-- One traversal of the `ElifVisitor`: `visit_If` fires at every `if`
node before its subtree, and traversal continues into all children. -/
def elif_visit_stmt (s : Stmt) (m : IfChildren) : IfChildren :=
  match s with
  | .ifStmt t b e =>
      elif_visit_stmts e (elif_visit_stmts b (check_elifs m (.ifStmt t b e)))
  | .funcDef _ _ _ _ b => elif_visit_stmts b m
  | .classDef _ _ b => elif_visit_stmts b m
  | .whileStmt _ b e => elif_visit_stmts e (elif_visit_stmts b m)
  | .forStmt _ _ b e => elif_visit_stmts e (elif_visit_stmts b m)
  | .withStmt _ b => elif_visit_stmts b m
  | .tryStmt b hs e f =>
      elif_visit_stmts f
        (elif_visit_stmts e (elif_visit_handlers hs (elif_visit_stmts b m)))
  | _ => m
termination_by structural s

def elif_visit_stmts (ss : List Stmt) (m : IfChildren) : IfChildren :=
  match ss with
  | [] => m
  | s :: rest => elif_visit_stmts rest (elif_visit_stmt s m)
termination_by structural ss

def elif_visit_handlers (hs : List (Option Expr × List Stmt))
    (m : IfChildren) : IfChildren :=
  match hs with
  | [] => m
  | (_, b) :: rest => elif_visit_handlers rest (elif_visit_stmts b m)
termination_by structural hs

end

/-- `ElifVisitor._post_visit`: for each recorded root in insertion order,
count the distinct members (`len(set(children))`) and emit one violation
anchored at the root when the count exceeds `MAX_ELIFS`. -/
def elif_post_visit (MAX_ELIFS : Nat) : IfChildren → List Violation
  | [] => []
  | (root, children) :: rest =>
      (if children.dedup.length > MAX_ELIFS then
        [Violation.tooManyElifs root children.dedup.length]
      else []) ++ elif_post_visit MAX_ELIFS rest

/-- A full `ElifVisitor` run: fresh empty mapping, one traversal, then
`_post_visit`. -/
def elif_run (c : Constants) (tree : List Stmt) : List Violation :=
  elif_post_visit c.MAX_ELIFS (elif_visit_stmts tree [])

mutual

/-- Whether a statement contains an `if` statement anywhere. -/
def stmt_has_if : Stmt → Bool
  | .ifStmt _ _ _ => true
  | .funcDef _ _ _ _ b => stmts_have_if b
  | .classDef _ _ b => stmts_have_if b
  | .whileStmt _ b e => stmts_have_if b || stmts_have_if e
  | .forStmt _ _ b e => stmts_have_if b || stmts_have_if e
  | .withStmt _ b => stmts_have_if b
  | .tryStmt b hs e f =>
      stmts_have_if b || handlers_have_if hs || stmts_have_if e ||
        stmts_have_if f
  | _ => false
termination_by structural s => s

def stmts_have_if : List Stmt → Bool
  | [] => false
  | s :: rest => stmt_has_if s || stmts_have_if rest
termination_by structural l => l

def handlers_have_if : List (Option Expr × List Stmt) → Bool
  | [] => false
  | (_, b) :: rest => stmts_have_if b || handlers_have_if rest
termination_by structural l => l

end

/-- The cascade with elif steps `steps` (each step's alternative branch is
exactly the next conditional) ending in a final conditional whose
alternative is `term`. -/
def chain_from (steps : List (Expr × List Stmt)) (ft : Expr)
    (fb : List Stmt) (term : List Stmt) : Stmt :=
  match steps with
  | [] => .ifStmt ft fb term
  | (t, b) :: rest => .ifStmt t b [chain_from rest ft fb term]

/-- All conditionals of the cascade, outermost first. -/
def chain_nodes (steps : List (Expr × List Stmt)) (ft : Expr)
    (fb : List Stmt) (term : List Stmt) : List Stmt :=
  match steps with
  | [] => [.ifStmt ft fb term]
  | (t, b) :: rest =>
      .ifStmt t b [chain_from rest ft fb term] :: chain_nodes rest ft fb term

/-- The members the traversal appends to the root's list while walking the
cascade below the root. -/
def chain_ext (steps : List (Expr × List Stmt)) (ft : Expr)
    (fb : List Stmt) (term : List Stmt) : List Stmt :=
  match steps with
  | [] => []
  | (t, b) :: rest =>
      .ifStmt t b [chain_from rest ft fb term] ::
        chain_from rest ft fb term :: chain_ext rest ft fb term

/-! ## Shadow attribute detection rule

The implementation (`visitors/ast/classes/attributes.py`,
`ClassAttributeVisitor`) is not among the sources under verification — only
its tests and the `ShadowedClassAttributeViolation` record (oop.py lines
56-109) are — so the rule is modelled from the spec, section 4.4. -/

/-- A bare-name assignment target (`ast.Name`), else `none`. -/
def bare_name : Expr → Option String
  | .name n => some n
  | _ => none

/-- An assignment target that is an attribute access with a bare attribute
name on the given base name, else `none`. -/
def attr_target_on (base : String) : Expr → Option String
  | .attr (.name p) a => if p = base then some a else none
  | _ => none

mutual

/-- Modelled from the spec: phase 1 of the shadow rule, the names bound at
class level by a plain assignment or an annotated declaration carrying an
initializing value (`DeclaredWithValue`): recurse through the class body's
statements, descending into nested control-flow blocks but not into nested
function or class declarations; assignments whose target is not a bare
name are ignored. -/
def declared_with_value_stmt : Stmt → List String
  | .assign targets _ => targets.filterMap bare_name
  | .annAssign target _ (some _) => (bare_name target).toList
  | .ifStmt _ b e => declared_with_value b ++ declared_with_value e
  | .whileStmt _ b e => declared_with_value b ++ declared_with_value e
  | .forStmt _ _ b e => declared_with_value b ++ declared_with_value e
  | .withStmt _ b => declared_with_value b
  | .tryStmt b hs e f =>
      declared_with_value b ++ declared_with_value_handlers hs ++
        declared_with_value e ++ declared_with_value f
  | _ => []
termination_by structural s => s

def declared_with_value : List Stmt → List String
  | [] => []
  | s :: rest => declared_with_value_stmt s ++ declared_with_value rest
termination_by structural l => l

def declared_with_value_handlers :
    List (Option Expr × List Stmt) → List String
  | [] => []
  | (_, b) :: rest =>
      declared_with_value b ++ declared_with_value_handlers rest
termination_by structural l => l

end

mutual

/-- Modelled from the spec: phase 1 of the shadow rule, the names bound at
class level by an annotated declaration without a value (`DeclaredBare`,
exempt from flagging), with the same descent rules as
`declared_with_value_stmt`. -/
def declared_bare_stmt : Stmt → List String
  | .annAssign target _ none => (bare_name target).toList
  | .ifStmt _ b e => declared_bare b ++ declared_bare e
  | .whileStmt _ b e => declared_bare b ++ declared_bare e
  | .forStmt _ _ b e => declared_bare b ++ declared_bare e
  | .withStmt _ b => declared_bare b
  | .tryStmt b hs e f =>
      declared_bare b ++ declared_bare_handlers hs ++
        declared_bare e ++ declared_bare f
  | _ => []
termination_by structural s => s

def declared_bare : List Stmt → List String
  | [] => []
  | s :: rest => declared_bare_stmt s ++ declared_bare rest
termination_by structural l => l

def declared_bare_handlers : List (Option Expr × List Stmt) → List String
  | [] => []
  | (_, b) :: rest => declared_bare b ++ declared_bare_handlers rest
termination_by structural l => l

end

mutual

/-- Modelled from the spec: phase 2 of the shadow rule, the bare attribute
names assigned on the method's first declared parameter
(`InstanceAssigned`): recurse through the method body including nested
control-flow blocks, excluding nested function/class declarations;
attribute assignment on any other base, or a plain local assignment, is
ignored. -/
def instance_assigned_stmt (base : String) : Stmt → List String
  | .assign targets _ => targets.filterMap (attr_target_on base)
  | .annAssign target _ (some _) => (attr_target_on base target).toList
  | .ifStmt _ b e =>
      instance_assigned_stmts base b ++ instance_assigned_stmts base e
  | .whileStmt _ b e =>
      instance_assigned_stmts base b ++ instance_assigned_stmts base e
  | .forStmt _ _ b e =>
      instance_assigned_stmts base b ++ instance_assigned_stmts base e
  | .withStmt _ b => instance_assigned_stmts base b
  | .tryStmt b hs e f =>
      instance_assigned_stmts base b ++
        instance_assigned_handlers base hs ++
        instance_assigned_stmts base e ++ instance_assigned_stmts base f
  | _ => []
termination_by structural s => s

def instance_assigned_stmts (base : String) : List Stmt → List String
  | [] => []
  | s :: rest =>
      instance_assigned_stmt base s ++ instance_assigned_stmts base rest
termination_by structural l => l

def instance_assigned_handlers (base : String) :
    List (Option Expr × List Stmt) → List String
  | [] => []
  | (_, b) :: rest =>
      instance_assigned_stmts base b ++ instance_assigned_handlers base rest
termination_by structural l => l

end

/-- Modelled from the spec: the instance-assigned names contributed by one
method declared directly under the class — attribute assignments on the
method's first declared parameter; a method with no parameters contributes
nothing. -/
def method_instance_assigned : Stmt → List String
  | .funcDef _ _ (p :: _) _ body => instance_assigned_stmts p body
  | _ => []

/-- Modelled from the spec: `InstanceAssigned` for a class body — every
method declared directly under the class is scanned (not only the primary
initializer). -/
def instance_assigned_names (body : List Stmt) : List String :=
  body.flatMap method_instance_assigned

/-- Modelled from the spec: phase 3, the recognized auto-generated-
initializer marker — the `dataclass` annotation, written bare or as the
callee of a call expression; any other shape (a different name, a
subscripted expression, ...) does not exempt. -/
def is_dataclass_decorator : Expr → Bool
  | .name n => n == "dataclass"
  | .call (.name n) _ => n == "dataclass"
  | _ => false

/-- Modelled from the spec: a class is exempt when some decorator is the
recognized auto-initializer marker. -/
def has_auto_init_decorator (decoratorList : List Expr) : Bool :=
  decoratorList.any is_dataclass_decorator

/-- Modelled from the spec: phase 4, emission for one class declaration —
one `ShadowedClassAttributeViolation` carrying the name, for every name
declared with a value at class level and also instance-assigned in some
method, unless the class is exempt; names only declared bare are never
flagged because emission draws from `DeclaredWithValue` alone. -/
def class_shadow_violations (cls : Stmt) : List Violation :=
  match cls with
  | .classDef _ d body =>
      if has_auto_init_decorator d then []
      else
        (((declared_with_value body).dedup.filter
          (fun n => n ∈ instance_assigned_names body)).map
          Violation.shadowedClassAttribute)
  | _ => []

mutual

/-- One traversal of the shadow rule over a tree: the per-class emission
fires at every class declaration, traversal continues into all bodies. -/
def shadow_visit_stmt : Stmt → List Violation
  | .classDef n d b =>
      class_shadow_violations (.classDef n d b) ++ shadow_visit_stmts b
  | .funcDef _ _ _ _ b => shadow_visit_stmts b
  | .ifStmt _ b e => shadow_visit_stmts b ++ shadow_visit_stmts e
  | .whileStmt _ b e => shadow_visit_stmts b ++ shadow_visit_stmts e
  | .forStmt _ _ b e => shadow_visit_stmts b ++ shadow_visit_stmts e
  | .withStmt _ b => shadow_visit_stmts b
  | .tryStmt b hs e f =>
      shadow_visit_stmts b ++ shadow_visit_handlers hs ++
        shadow_visit_stmts e ++ shadow_visit_stmts f
  | _ => []
termination_by structural s => s

def shadow_visit_stmts : List Stmt → List Violation
  | [] => []
  | s :: rest => shadow_visit_stmt s ++ shadow_visit_stmts rest
termination_by structural l => l

def shadow_visit_handlers : List (Option Expr × List Stmt) → List Violation
  | [] => []
  | (_, b) :: rest => shadow_visit_stmts b ++ shadow_visit_handlers rest
termination_by structural l => l

end

mutual

/-- Traversal of the `ConditionsVisitor` over statements: expressions are
visited in the field order of the Python AST, and every `BoolOp` and
`Compare` node anywhere in the tree is checked. -/
def conditions_visit_stmt (c : Constants) : Stmt → List Violation
  | .assign targets value =>
      conditions_visit_exprs c targets ++ conditions_visit_expr c value
  | .annAssign target ann value =>
      conditions_visit_expr c target ++ conditions_visit_expr c ann ++
        (match value with
          | some v => conditions_visit_expr c v
          | none => [])
  | .exprStmt v => conditions_visit_expr c v
  | .ret value =>
      (match value with
        | some v => conditions_visit_expr c v
        | none => [])
  | .funcDef _ _ _ d b =>
      conditions_visit_stmts c b ++ conditions_visit_exprs c d
  | .classDef _ d b =>
      conditions_visit_stmts c b ++ conditions_visit_exprs c d
  | .ifStmt t b e =>
      conditions_visit_expr c t ++ conditions_visit_stmts c b ++
        conditions_visit_stmts c e
  | .whileStmt t b e =>
      conditions_visit_expr c t ++ conditions_visit_stmts c b ++
        conditions_visit_stmts c e
  | .forStmt tg it b e =>
      conditions_visit_expr c tg ++ conditions_visit_expr c it ++
        conditions_visit_stmts c b ++ conditions_visit_stmts c e
  | .withStmt cx b =>
      conditions_visit_expr c cx ++ conditions_visit_stmts c b
  | .tryStmt b hs e f =>
      conditions_visit_stmts c b ++ conditions_visit_handlers c hs ++
        conditions_visit_stmts c e ++ conditions_visit_stmts c f
  | .pass => []
termination_by structural s => s

def conditions_visit_stmts (c : Constants) : List Stmt → List Violation
  | [] => []
  | s :: rest =>
      conditions_visit_stmt c s ++ conditions_visit_stmts c rest
termination_by structural l => l

def conditions_visit_handlers (c : Constants) :
    List (Option Expr × List Stmt) → List Violation
  | [] => []
  | (t, b) :: rest =>
      (match t with
        | some e => conditions_visit_expr c e
        | none => []) ++ conditions_visit_stmts c b ++
        conditions_visit_handlers c rest
termination_by structural l => l

end

/-! ## The rule registry and engine (spec sections 4.2 and 5) -/

/-- Identifiers of the embedded rules. -/
inductive RuleId
  | moduleMembers
  | conditions
  | elifRule
  | tryExcept
  | shadow
deriving DecidableEq

/-- The full run of one rule over one tree: each `*_run` / traversal starts
from the literal initial state (a fresh instance per tree) and the
instance is discarded after producing its result list. -/
def rule_run (r : RuleId) (c : Constants) (o : Options)
    (tree : List Stmt) : List Violation :=
  match r with
  | .moduleMembers => module_members_run o tree
  | .conditions => conditions_visit_stmts c tree
  | .elifRule => elif_run c tree
  | .tryExcept => tryexcept_visit_stmts c o tree
  | .shadow => shadow_visit_stmts tree

/-- The walker running a chosen sequence of rules over one tree, collecting
each rule's own result list. -/
def run_rules (rules : List RuleId) (c : Constants) (o : Options)
    (tree : List Stmt) : List (RuleId × List Violation) :=
  rules.map fun r => (r, rule_run r c o tree)

/-! ## Theorems about the shadow attribute rule (modelled from the spec) -/

theorem shadowed_injective :
    Function.Injective Violation.shadowedClassAttribute :=
  fun _ _ h => by injection h

/-- C1 (shadow rule modelled from the spec): for a class declaration where
a name is bound at class level by an assignment or annotated declaration
with an initializing value, the same name is assigned as an attribute of
the first declared parameter in the body of some method directly under the
class, and the class carries no recognized auto-initializer marker, the
per-class emission of the rule holds exactly one shadowed-class-attribute
violation for that name, carrying the name as substitution text (the tree
run concatenates these per-class emissions, see `shadow_visit_stmt`). -/
theorem shadow_exactly_one_violation (cname : String) (d : List Expr)
    (body : List Stmt) (n : String)
    (h1 : n ∈ declared_with_value body)
    (h2 : n ∈ instance_assigned_names body)
    (h3 : has_auto_init_decorator d = false) :
    (class_shadow_violations (.classDef cname d body)).count
      (Violation.shadowedClassAttribute n) = 1 := by
  simp only [class_shadow_violations, h3]
  simp only [Bool.false_eq_true, if_false]
  rw [List.count_map_of_injective _ _ shadowed_injective]
  apply List.count_eq_one_of_mem
  · exact List.Nodup.filter _ (List.nodup_dedup _)
  · rw [List.mem_filter]
    exact ⟨List.mem_dedup.mpr h1, by simpa using h2⟩

/-- Witness for C1 at the test fixture `class_attribute`: `field1 = 0` at
class level, `self.field1 = 2` in `__init__`, no decorator — exactly one
violation carrying `field1`. -/
theorem shadow_exactly_one_violation_witness :
    (class_shadow_violations (.classDef "ClassWithAttrs" []
      [.assign [.name "field1"] (.intLit 0),
       .funcDef false "__init__" ["self"] []
         [.assign [.attr (.name "self") "field1"] (.intLit 2)]])).count
      (Violation.shadowedClassAttribute "field1") = 1 :=
  shadow_exactly_one_violation "ClassWithAttrs" []
    [.assign [.name "field1"] (.intLit 0),
     .funcDef false "__init__" ["self"] []
       [.assign [.attr (.name "self") "field1"] (.intLit 2)]]
    "field1" (by decide) (by decide) rfl

/-- C2 (shadow rule modelled from the spec): the auto-initializer marker is
recognized written bare or as the callee of a call, and an exempt class
produces no shadow violations regardless of name overlap; a
differently-named decorator, or one written as a subscript, never matches
the marker, and a class none of whose decorators match emits exactly what
it would emit with no decorators at all. -/
theorem shadow_dataclass_exemption (cname : String) (d : List Expr)
    (body : List Stmt) :
    (is_dataclass_decorator (.name "dataclass") = true ∧
      ∀ args, is_dataclass_decorator (.call (.name "dataclass") args) =
        true) ∧
    (has_auto_init_decorator d = true →
      class_shadow_violations (.classDef cname d body) = []) ∧
    (∀ base index, is_dataclass_decorator (.subscript base index) =
      false) ∧
    (∀ nm, nm ≠ "dataclass" →
      is_dataclass_decorator (.name nm) = false ∧
      ∀ args, is_dataclass_decorator (.call (.name nm) args) = false) ∧
    (has_auto_init_decorator d = false →
      class_shadow_violations (.classDef cname d body) =
        class_shadow_violations (.classDef cname [] body)) := by
  refine ⟨⟨rfl, fun args => rfl⟩, ?_, ?_, ?_, ?_⟩
  · intro h
    simp only [class_shadow_violations, h, if_true]
  · intro base index
    rfl
  · intro nm hnm
    refine ⟨by simp [is_dataclass_decorator, hnm], ?_⟩
    intro args
    simp [is_dataclass_decorator, hnm]
  · intro h
    simp only [class_shadow_violations, h]
    simp [has_auto_init_decorator]

/-- Witness for C2 at the test fixtures `class_with_dataclass_decorator1`
and `class_with_dataclass_decorator2`: the `@dataclass` marker (bare, and
called with arguments) suppresses the violation of an overlapping name,
and the subscripted decorator of `class_with_unrelated_decorator2` does
not match the marker. -/
theorem shadow_dataclass_exemption_witness :
    class_shadow_violations (.classDef "ClassWithAttrs" [.name "dataclass"]
      [.annAssign (.name "field1") (.name "int") (some (.intLit 0)),
       .funcDef false "__post_init__" ["self"] []
         [.assign [.attr (.name "self") "field1"] (.intLit 2)]]) = [] ∧
    class_shadow_violations (.classDef "ClassWithAttrs"
      [.call (.name "dataclass") [.name "slots"]]
      [.annAssign (.name "field1") (.name "int") (some (.intLit 0)),
       .funcDef false "__post_init__" ["self"] []
         [.assign [.attr (.name "self") "field1"] (.intLit 2)]]) = [] ∧
    is_dataclass_decorator
      (.subscript (.name "not_dataclasses") (.intLit 0)) = false :=
  ⟨(shadow_dataclass_exemption "ClassWithAttrs" [.name "dataclass"]
      [.annAssign (.name "field1") (.name "int") (some (.intLit 0)),
       .funcDef false "__post_init__" ["self"] []
         [.assign [.attr (.name "self") "field1"] (.intLit 2)]]).2.1 rfl,
   (shadow_dataclass_exemption "ClassWithAttrs"
      [.call (.name "dataclass") [.name "slots"]]
      [.annAssign (.name "field1") (.name "int") (some (.intLit 0)),
       .funcDef false "__post_init__" ["self"] []
         [.assign [.attr (.name "self") "field1"] (.intLit 2)]]).2.1 rfl,
   (shadow_dataclass_exemption "ClassWithAttrs" [] []).2.2.1
     (.name "not_dataclasses") (.intLit 0)⟩

/-- C3 (shadow rule modelled from the spec): a name not registered in
`DeclaredWithValue` — in particular one bound at class level only by an
annotated declaration without a value, which registers in `DeclaredBare`
and not in `DeclaredWithValue` — is never flagged by the rule, even when
it is also instance-assigned in a method body. -/
theorem shadow_bare_annotation_never_flagged (cname : String)
    (d : List Expr) (body : List Stmt) (n : String) (ann : Expr)
    (h1 : n ∉ declared_with_value body) :
    ((class_shadow_violations (.classDef cname d body)).count
      (Violation.shadowedClassAttribute n) = 0) ∧
    declared_with_value_stmt (.annAssign (.name n) ann none) = [] ∧
    declared_bare_stmt (.annAssign (.name n) ann none) = [n] := by
  refine ⟨?_, rfl, rfl⟩
  simp only [class_shadow_violations]
  cases hd : has_auto_init_decorator d
  · simp only [hd, Bool.false_eq_true, if_false]
    rw [List.count_map_of_injective _ _ shadowed_injective]
    apply List.count_eq_zero_of_not_mem
    intro hmem
    exact h1 (List.mem_dedup.mp (List.mem_of_mem_filter hmem))
  · simp

/-- Witness for C3 at the test fixture `class_annotation`: a bare
`field1: int` annotation followed by `self.field1 = 2` in `__init__`
produces no violation. -/
theorem shadow_bare_annotation_never_flagged_witness :
    (class_shadow_violations (.classDef "ClassWithAttrs" []
      [.annAssign (.name "field1") (.name "int") none,
       .funcDef false "__init__" ["self"] []
         [.assign [.attr (.name "self") "field1"] (.intLit 2)]])).count
      (Violation.shadowedClassAttribute "field1") = 0 :=
  (shadow_bare_annotation_never_flagged "ClassWithAttrs" []
    [.annAssign (.name "field1") (.name "int") none,
     .funcDef false "__init__" ["self"] []
       [.assign [.attr (.name "self") "field1"] (.intLit 2)]]
    "field1" (.name "int") (by decide)).1

/-! ## Theorems about `ModuleMembersVisitor` -/

mutual

theorem mm_visit_stmt_eq (o : Options) :
    ∀ (s : Stmt) (ctx : Ctx) (st : MMState),
    module_members_visit_stmt o s ctx st =
      ⟨st.public_items_count +
          (if ctx = .module then
            ((module_scope_decls_stmt s).filter countable_decl).length
          else 0),
        st.violations ++
          (all_decls_stmt s).filterMap (check_decorators_count o)⟩
  | .funcDef a n ags d b, ctx, st => by
      simp only [module_members_visit_stmt]
      rw [mm_visit_stmts_eq o b .fn]
      simp only [module_scope_decls_stmt, all_decls_stmt,
        List.filterMap_cons, MMState.mk.injEq]
      constructor
      · cases ctx <;>
          simp [members_count_increment, countable_decl,
            Stmt.isFunctionNode, Stmt.decorator_list, List.filter_cons] <;>
          cases hov : has_overload_decorator d <;> simp [hov]
      · cases hc : check_decorators_count o (.funcDef a n ags d b) <;>
          simp [hc, List.append_assoc]
  | .classDef n d b, ctx, st => by
      simp only [module_members_visit_stmt]
      rw [mm_visit_stmts_eq o b .cls]
      simp only [module_scope_decls_stmt, all_decls_stmt,
        List.filterMap_cons, MMState.mk.injEq]
      constructor
      · cases ctx <;>
          simp [members_count_increment, countable_decl,
            Stmt.isFunctionNode, Stmt.decorator_list, List.filter_cons]
      · cases hc : check_decorators_count o (.classDef n d b) <;>
          simp [hc, List.append_assoc]
  | .ifStmt t b e, ctx, st => by
      simp only [module_members_visit_stmt]
      rw [mm_visit_stmts_eq o b ctx, mm_visit_stmts_eq o e ctx]
      simp only [module_scope_decls_stmt, all_decls_stmt,
        List.filter_append, List.filterMap_append, List.length_append,
        MMState.mk.injEq, List.append_assoc, and_true, true_and]
      cases ctx <;> simp <;> omega
  | .whileStmt t b e, ctx, st => by
      simp only [module_members_visit_stmt]
      rw [mm_visit_stmts_eq o b ctx, mm_visit_stmts_eq o e ctx]
      simp only [module_scope_decls_stmt, all_decls_stmt,
        List.filter_append, List.filterMap_append, List.length_append,
        MMState.mk.injEq, List.append_assoc, and_true, true_and]
      cases ctx <;> simp <;> omega
  | .forStmt t i b e, ctx, st => by
      simp only [module_members_visit_stmt]
      rw [mm_visit_stmts_eq o b ctx, mm_visit_stmts_eq o e ctx]
      simp only [module_scope_decls_stmt, all_decls_stmt,
        List.filter_append, List.filterMap_append, List.length_append,
        MMState.mk.injEq, List.append_assoc, and_true, true_and]
      cases ctx <;> simp <;> omega
  | .withStmt c b, ctx, st => by
      simp only [module_members_visit_stmt]
      rw [mm_visit_stmts_eq o b ctx]
      simp only [module_scope_decls_stmt, all_decls_stmt]
  | .tryStmt b hs e f, ctx, st => by
      simp only [module_members_visit_stmt]
      rw [mm_visit_stmts_eq o b ctx, mm_visit_handlers_eq o hs ctx,
        mm_visit_stmts_eq o e ctx, mm_visit_stmts_eq o f ctx]
      simp only [module_scope_decls_stmt, all_decls_stmt,
        List.filter_append, List.filterMap_append, List.length_append,
        MMState.mk.injEq, List.append_assoc, and_true, true_and]
      cases ctx <;> simp <;> omega
  | .assign _ _, ctx, st => by
      simp [module_members_visit_stmt, module_scope_decls_stmt,
        all_decls_stmt]
  | .annAssign _ _ _, ctx, st => by
      simp [module_members_visit_stmt, module_scope_decls_stmt,
        all_decls_stmt]
  | .exprStmt _, ctx, st => by
      simp [module_members_visit_stmt, module_scope_decls_stmt,
        all_decls_stmt]
  | .ret _, ctx, st => by
      simp [module_members_visit_stmt, module_scope_decls_stmt,
        all_decls_stmt]
  | .pass, ctx, st => by
      simp [module_members_visit_stmt, module_scope_decls_stmt,
        all_decls_stmt]
termination_by structural s => s

theorem mm_visit_stmts_eq (o : Options) :
    ∀ (ss : List Stmt) (ctx : Ctx) (st : MMState),
    module_members_visit_stmts o ss ctx st =
      ⟨st.public_items_count +
          (if ctx = .module then
            ((module_scope_decls ss).filter countable_decl).length
          else 0),
        st.violations ++ (all_decls ss).filterMap (check_decorators_count o)⟩
  | [], ctx, st => by
      simp [module_members_visit_stmts, module_scope_decls, all_decls]
  | s :: rest, ctx, st => by
      simp only [module_members_visit_stmts]
      rw [mm_visit_stmt_eq o s ctx, mm_visit_stmts_eq o rest ctx]
      simp only [module_scope_decls, all_decls, List.filter_append,
        List.filterMap_append, List.length_append, MMState.mk.injEq,
        List.append_assoc, and_true, true_and]
      cases ctx <;> simp <;> omega
termination_by structural ss => ss

theorem mm_visit_handlers_eq (o : Options) :
    ∀ (hs : List (Option Expr × List Stmt)) (ctx : Ctx) (st : MMState),
    module_members_visit_handlers o hs ctx st =
      ⟨st.public_items_count +
          (if ctx = .module then
            ((module_scope_decls_handlers hs).filter countable_decl).length
          else 0),
        st.violations ++
          (all_decls_handlers hs).filterMap (check_decorators_count o)⟩
  | [], ctx, st => by
      simp [module_members_visit_handlers, module_scope_decls_handlers,
        all_decls_handlers]
  | (t, b) :: rest, ctx, st => by
      simp only [module_members_visit_handlers]
      rw [mm_visit_stmts_eq o b ctx, mm_visit_handlers_eq o rest ctx]
      simp only [module_scope_decls_handlers, all_decls_handlers,
        List.filter_append, List.filterMap_append, List.length_append,
        MMState.mk.injEq, List.append_assoc, and_true, true_and]
      cases ctx <;> simp <;> omega
termination_by structural hs => hs

end

/-- C7: the module-members rule counts exactly the class and function
declarations whose enclosing scope is the module (declarations nested in
conditionals, loops, `with` and `try` blocks at module level included, and
declarations inside class or function bodies excluded), excluding function
declarations carrying the interface-overload marker, and the single
`TooManyModuleMembersViolation` is appended after all per-node decorator
violations — once per tree, at finalization — exactly when that count
exceeds `max_module_members`. -/
theorem module_members_exact_count (o : Options) (tree : List Stmt) :
    module_members_run o tree =
      (all_decls tree).filterMap (check_decorators_count o) ++
        (if ((module_scope_decls tree).filter countable_decl).length >
            o.max_module_members then
          [Violation.tooManyModuleMembers
            ((module_scope_decls tree).filter countable_decl).length]
        else []) := by
  unfold module_members_run
  rw [mm_visit_stmts_eq o tree .module ⟨0, []⟩]
  simp

theorem filterMap_decorators_filter (o : Options) (l : List Stmt) :
    (l.filterMap (check_decorators_count o)).filter Violation.isDecorators =
      l.filterMap (check_decorators_count o) := by
  induction l with
  | nil => rfl
  | cons s rest ih =>
      cases hc : check_decorators_count o s with
      | none => simp [List.filterMap_cons, hc, ih]
      | some v =>
          have hv : Violation.isDecorators v = true := by
            unfold check_decorators_count at hc
            split at hc
            · cases hc; rfl
            · cases hc
          simp [List.filterMap_cons, hc, ih, hv]

/-- C10: the decorator-count check fires at every class and function
declaration of the tree regardless of its enclosing scope (`all_decls`
collects declarations at every depth, including methods and nested
functions), emitting one violation per declaration whose decorator-list
length exceeds `max_decorators`, anchored at that node; the module-scope
restriction applies only to the member-count accumulation. -/
theorem decorator_count_every_scope (o : Options) (tree : List Stmt) :
    ((module_members_run o tree).filter Violation.isDecorators =
      (all_decls tree).filterMap (check_decorators_count o)) ∧
    (∀ node : Stmt, check_decorators_count o node =
      if node.decorator_list.length > o.max_decorators then
        some (.tooManyDecorators node node.decorator_list.length)
      else none) := by
  constructor
  · unfold module_members_run
    rw [mm_visit_stmts_eq o tree .module ⟨0, []⟩]
    simp only [List.filter_append, filterMap_decorators_filter,
      List.nil_append]
    split <;> simp [Violation.isDecorators]
  · intro node
    rfl

/-! ## Theorems about `ElifVisitor` -/

mutual

theorem elif_visit_stmt_no_if :
    ∀ (s : Stmt) (m : IfChildren), stmt_has_if s = false →
      elif_visit_stmt s m = m
  | .ifStmt _ _ _, m, h => by simp [stmt_has_if] at h
  | .funcDef _ _ _ _ b, m, h => by
      simp only [stmt_has_if] at h
      simp only [elif_visit_stmt]
      exact elif_visit_stmts_no_if b m h
  | .classDef _ _ b, m, h => by
      simp only [stmt_has_if] at h
      simp only [elif_visit_stmt]
      exact elif_visit_stmts_no_if b m h
  | .whileStmt _ b e, m, h => by
      simp only [stmt_has_if, Bool.or_eq_false_iff] at h
      simp only [elif_visit_stmt]
      rw [elif_visit_stmts_no_if b m h.1, elif_visit_stmts_no_if e m h.2]
  | .forStmt _ _ b e, m, h => by
      simp only [stmt_has_if, Bool.or_eq_false_iff] at h
      simp only [elif_visit_stmt]
      rw [elif_visit_stmts_no_if b m h.1, elif_visit_stmts_no_if e m h.2]
  | .withStmt _ b, m, h => by
      simp only [stmt_has_if] at h
      simp only [elif_visit_stmt]
      exact elif_visit_stmts_no_if b m h
  | .tryStmt b hs e f, m, h => by
      simp only [stmt_has_if, Bool.or_eq_false_iff] at h
      simp only [elif_visit_stmt]
      rw [elif_visit_stmts_no_if b m h.1.1.1,
        elif_visit_handlers_no_if hs m h.1.1.2,
        elif_visit_stmts_no_if e m h.1.2, elif_visit_stmts_no_if f m h.2]
  | .assign _ _, m, _ => by simp [elif_visit_stmt]
  | .annAssign _ _ _, m, _ => by simp [elif_visit_stmt]
  | .exprStmt _, m, _ => by simp [elif_visit_stmt]
  | .ret _, m, _ => by simp [elif_visit_stmt]
  | .pass, m, _ => by simp [elif_visit_stmt]
termination_by structural s => s

theorem elif_visit_stmts_no_if :
    ∀ (ss : List Stmt) (m : IfChildren), stmts_have_if ss = false →
      elif_visit_stmts ss m = m
  | [], m, _ => by simp [elif_visit_stmts]
  | s :: rest, m, h => by
      simp only [stmts_have_if, Bool.or_eq_false_iff] at h
      simp only [elif_visit_stmts]
      rw [elif_visit_stmt_no_if s m h.1, elif_visit_stmts_no_if rest m h.2]
termination_by structural ss => ss

theorem elif_visit_handlers_no_if :
    ∀ (hs : List (Option Expr × List Stmt)) (m : IfChildren),
      handlers_have_if hs = false → elif_visit_handlers hs m = m
  | [], m, _ => by simp [elif_visit_handlers]
  | (t, b) :: rest, m, h => by
      simp only [handlers_have_if, Bool.or_eq_false_iff] at h
      simp only [elif_visit_handlers]
      rw [elif_visit_stmts_no_if b m h.1,
        elif_visit_handlers_no_if rest m h.2]
termination_by structural hs => hs

end

theorem chain_from_isIf (steps : List (Expr × List Stmt)) (ft : Expr)
    (fb term : List Stmt) : (chain_from steps ft fb term).isIf = true := by
  cases steps with
  | nil => rfl
  | cons p rest => obtain ⟨t, b⟩ := p; rfl

theorem chain_nodes_sizeOf_le (steps : List (Expr × List Stmt)) (ft : Expr)
    (fb term : List Stmt) :
    ∀ x ∈ chain_nodes steps ft fb term,
      sizeOf x ≤ sizeOf (chain_from steps ft fb term) := by
  induction steps with
  | nil =>
      intro x hx
      simp only [chain_nodes, List.mem_singleton] at hx
      subst hx
      simp [chain_from]
  | cons p rest ih =>
      obtain ⟨t, b⟩ := p
      intro x hx
      simp only [chain_nodes, List.mem_cons] at hx
      rcases hx with rfl | hx
      · simp [chain_from]
      · have h1 := ih x hx
        have h2 : sizeOf (chain_from rest ft fb term) <
            sizeOf (chain_from ((t, b) :: rest) ft fb term) := by
          simp [chain_from, Stmt.ifStmt.sizeOf_spec]
          omega
        simp only [chain_from] at h2 ⊢
        omega

theorem chain_nodes_nodup (steps : List (Expr × List Stmt)) (ft : Expr)
    (fb term : List Stmt) : (chain_nodes steps ft fb term).Nodup := by
  induction steps with
  | nil => simp [chain_nodes]
  | cons p rest ih =>
      obtain ⟨t, b⟩ := p
      simp only [chain_nodes, List.nodup_cons]
      refine ⟨?_, ih⟩
      intro hmem
      have h1 := chain_nodes_sizeOf_le rest ft fb term _ hmem
      simp [chain_from, Stmt.ifStmt.sizeOf_spec] at h1
      omega

theorem chain_nodes_length (steps : List (Expr × List Stmt)) (ft : Expr)
    (fb term : List Stmt) :
    (chain_nodes steps ft fb term).length = steps.length + 1 := by
  induction steps with
  | nil => rfl
  | cons p rest ih =>
      obtain ⟨t, b⟩ := p
      simp only [chain_nodes, List.length_cons, ih]

theorem chain_ext_toFinset (steps : List (Expr × List Stmt)) (ft : Expr)
    (fb term : List Stmt) :
    (chain_from steps ft fb term ::
        chain_ext steps ft fb term).toFinset =
      (chain_nodes steps ft fb term).toFinset := by
  induction steps with
  | nil => rfl
  | cons p rest ih =>
      obtain ⟨t, b⟩ := p
      simp only [chain_from, chain_ext, chain_nodes, List.toFinset_cons]
      rw [← List.toFinset_cons, ih]
      simp [Finset.insert_idem]

theorem chain_members_dedup_length (steps : List (Expr × List Stmt))
    (ft : Expr) (fb term : List Stmt) :
    ((chain_from steps ft fb term ::
        chain_ext steps ft fb term).dedup).length = steps.length + 1 := by
  rw [← List.card_toFinset, chain_ext_toFinset, List.card_toFinset,
    (chain_nodes_nodup steps ft fb term).dedup,
    chain_nodes_length steps ft fb term]

theorem elif_chain_trace (steps : List (Expr × List Stmt)) (ft : Expr)
    (fb term : List Stmt) :
    ∀ (r : Stmt) (acc : List Stmt),
      term.all Stmt.isIf = false →
      stmts_have_if fb = false →
      stmts_have_if term = false →
      (∀ p ∈ steps, stmts_have_if p.2 = false) →
      chain_from steps ft fb term ∈ acc →
      (∀ x ∈ chain_nodes steps ft fb term, x ≠ r) →
      elif_visit_stmt (chain_from steps ft fb term) [(r, acc)] =
        [(r, acc ++ chain_ext steps ft fb term)] := by
  induction steps with
  | nil =>
      intro r acc hterm hfb hterm2 _ _ _
      simp only [chain_from, chain_ext, elif_visit_stmt, check_elifs,
        Stmt.orelse, hterm]
      simp only [if_neg Bool.false_ne_true]
      rw [elif_visit_stmts_no_if fb _ hfb,
        elif_visit_stmts_no_if term _ hterm2]
      simp
  | cons p rest ih =>
      obtain ⟨t, b⟩ := p
      intro r acc hterm hfb hterm2 hbodies hmem hne
      have hnode_ne_r : Stmt.ifStmt t b [chain_from rest ft fb term] ≠ r :=
        hne _ (by simp [chain_nodes])
      simp only [chain_from, elif_visit_stmt] at hmem ⊢
      rw [show check_elifs [(r, acc)]
            (.ifStmt t b [chain_from rest ft fb term]) =
          [(r, acc ++
            (Stmt.ifStmt t b [chain_from rest ft fb term] ::
              [chain_from rest ft fb term]))] by
        simp only [check_elifs, Stmt.orelse, List.all_cons, List.all_nil,
          chain_from_isIf, Bool.and_true, if_pos]
        simp only [get_root_if_node, if_pos hmem, update_if_child,
          Stmt.orelse, if_neg hnode_ne_r, append_children, if_pos rfl]
        simp]
      rw [elif_visit_stmts_no_if b _ (hbodies (t, b) (by simp))]
      simp only [elif_visit_stmts]
      rw [ih r (acc ++
          (Stmt.ifStmt t b [chain_from rest ft fb term] ::
            [chain_from rest ft fb term]))
        hterm hfb hterm2
        (fun p hp => hbodies p (List.mem_cons_of_mem _ hp))
        (by simp)
        (fun x hx => hne x (List.mem_cons_of_mem _ hx))]
      simp [chain_ext]

/-- C4: a module holding one cascade of `N` else-if conditionals — `N`
nested conditional nodes whose alternative branch consists entirely of
conditional nodes, terminated by a final conditional whose else block is
non-conditional — makes the elif rule record exactly `N` distinct members
attributed to the outermost conditional, and emit at most one violation
for the whole cascade, anchored at that root and carrying `N`, exactly
when `N` exceeds `MAX_ELIFS` (never one per elif step). -/
theorem elif_cascade_one_violation (c : Constants)
    (steps : List (Expr × List Stmt)) (ft : Expr) (fb term : List Stmt)
    (hsteps : steps ≠ [])
    (hterm : term.all Stmt.isIf = false)
    (hfb : stmts_have_if fb = false)
    (hterm2 : stmts_have_if term = false)
    (hbodies : ∀ p ∈ steps, stmts_have_if p.2 = false) :
    elif_run c [chain_from steps ft fb term] =
      if steps.length > c.MAX_ELIFS then
        [Violation.tooManyElifs (chain_from steps ft fb term) steps.length]
      else [] := by
  obtain ⟨t, b, rest, rfl⟩ : ∃ t b rest, steps = (t, b) :: rest := by
    cases steps with
    | nil => exact absurd rfl hsteps
    | cons p rest => obtain ⟨t, b⟩ := p; exact ⟨t, b, rest, rfl⟩
  unfold elif_run
  simp only [elif_visit_stmts, chain_from, elif_visit_stmt]
  rw [show check_elifs [] (.ifStmt t b [chain_from rest ft fb term]) =
      [(Stmt.ifStmt t b [chain_from rest ft fb term],
        [chain_from rest ft fb term])] by
    simp only [check_elifs, Stmt.orelse, List.all_cons, List.all_nil,
      chain_from_isIf, Bool.and_true, if_pos]
    simp [get_root_if_node, update_if_child, append_children, Stmt.orelse]]
  rw [elif_visit_stmts_no_if b _ (hbodies (t, b) (by simp))]
  rw [elif_chain_trace rest ft fb term
    (Stmt.ifStmt t b [chain_from rest ft fb term])
    [chain_from rest ft fb term]
    hterm hfb hterm2
    (fun p hp => hbodies p (List.mem_cons_of_mem _ hp))
    (by simp)
    (fun x hx => by
      intro hEq
      have h1 := chain_nodes_sizeOf_le rest ft fb term x hx
      rw [hEq] at h1
      simp [Stmt.ifStmt.sizeOf_spec] at h1
      omega)]
  simp only [List.singleton_append, elif_post_visit, List.append_nil]
  rw [chain_members_dedup_length rest ft fb term]
  simp [List.length_cons]

/-- Witness for C4 at a concrete cascade: four elif steps over a final
conditional with a `pass` else block, with `MAX_ELIFS = 3`, produce exactly
one violation at the outermost conditional carrying the count `4`. -/
theorem elif_cascade_one_violation_witness :
    elif_run ⟨4, 2, 3, 3⟩
      [chain_from
        [(.name "c1", [.pass]), (.name "c2", [.pass]),
         (.name "c3", [.pass]), (.name "c4", [.pass])]
        (.name "c5") [.pass] [.pass]] =
      [Violation.tooManyElifs
        (chain_from
          [(.name "c1", [.pass]), (.name "c2", [.pass]),
           (.name "c3", [.pass]), (.name "c4", [.pass])]
          (.name "c5") [.pass] [.pass]) 4] := by
  rw [elif_cascade_one_violation ⟨4, 2, 3, 3⟩
    [(.name "c1", [.pass]), (.name "c2", [.pass]),
     (.name "c3", [.pass]), (.name "c4", [.pass])]
    (.name "c5") [.pass] [.pass]
    (by simp) (by rfl) (by rfl) (by rfl)
    (by intro p hp; fin_cases hp <;> rfl)]
  rfl

/-! ## Theorems about the engine -/

/-- C9: running the engine twice on the same tree, constants and options
yields identical results, and the rules are mutually independent — the
result attributed to a rule in any engine run is exactly that rule's
standalone run, whatever other rules run before or after it and in
whatever order, because every rule's run starts from its own literal
fresh initial state. -/
theorem engine_deterministic_and_independent (c : Constants) (o : Options)
    (tree : List Stmt) (rules pre post : List RuleId) (r : RuleId) :
    (run_rules rules c o tree = run_rules rules c o tree) ∧
    (run_rules (pre ++ r :: post) c o tree =
      run_rules pre c o tree ++
        (r, rule_run r c o tree) :: run_rules post c o tree) := by
  refine ⟨rfl, ?_⟩
  simp [run_rules]

/-! ## Theorems about `TryExceptVisitor` -/

theorem check_except_count_filter (c : Constants) (n : Stmt)
    (hs : List Handler) :
    ((check_except_count c n hs).toList.filter
      Violation.isExceptExceptions) = [] := by
  unfold check_except_count
  split <;> simp [Violation.isExceptExceptions]

theorem check_try_body_length_filter (o : Options) (n : Stmt)
    (body : List Stmt) :
    ((check_try_body_length o n body).toList.filter
      Violation.isExceptExceptions) = [] := by
  unfold check_try_body_length
  split <;> simp [Violation.isExceptExceptions]

theorem check_finally_body_length_filter (o : Options) (n : Stmt)
    (fb : List Stmt) :
    ((check_finally_body_length o n fb).toList.filter
      Violation.isExceptExceptions) = [] := by
  unfold check_finally_body_length
  split <;> simp [Violation.isExceptExceptions]

theorem check_exceptions_count_filter (o : Options) (hs : List Handler) :
    (check_exceptions_count o hs).filter Violation.isExceptExceptions =
      check_exceptions_count o hs := by
  induction hs with
  | nil => simp [check_exceptions_count]
  | cons h rest ih =>
      obtain ⟨t, b⟩ := h
      simp only [check_exceptions_count, List.filter_append, ih]
      congr 1
      cases t with
      | none => simp
      | some e =>
          cases e <;> simp
          case tuple elts => simp [Violation.isExceptExceptions]

theorem check_exceptions_count_eq (o : Options) (hs : List Handler) :
    check_exceptions_count o hs = hs.filterMap fun h =>
      match h.1 with
      | some (.tuple elts) =>
          if elts.length > o.max_except_exceptions then
            some (Violation.tooManyExceptExceptions h elts.length)
          else none
      | _ => none := by
  induction hs with
  | nil => simp [check_exceptions_count]
  | cons h rest ih =>
      obtain ⟨t, b⟩ := h
      simp only [check_exceptions_count, ih, List.filterMap_cons]
      cases t with
      | none => simp
      | some e =>
          cases e <;> simp
          case tuple elts => split <;> simp

mutual

theorem tryexcept_filter_stmt (c : Constants) (o : Options) :
    ∀ s : Stmt, (tryexcept_visit_stmt c o s).filter
        Violation.isExceptExceptions =
      (all_tries_stmt s).flatMap fun t =>
        check_exceptions_count o t.handlersOf
  | .tryStmt body handlers orelse finalbody => by
      simp only [tryexcept_visit_stmt, all_tries_stmt, List.filter_append,
        List.flatMap_cons, List.flatMap_append, Stmt.handlersOf,
        check_except_count_filter, check_try_body_length_filter,
        check_finally_body_length_filter, check_exceptions_count_filter,
        tryexcept_filter_stmts c o body,
        tryexcept_filter_handlers c o handlers,
        tryexcept_filter_stmts c o orelse,
        tryexcept_filter_stmts c o finalbody]
      simp [List.append_assoc]
  | .funcDef _ _ _ _ body => by
      simpa only [tryexcept_visit_stmt, all_tries_stmt] using
        tryexcept_filter_stmts c o body
  | .classDef _ _ body => by
      simpa only [tryexcept_visit_stmt, all_tries_stmt] using
        tryexcept_filter_stmts c o body
  | .ifStmt _ body orelse => by
      simp only [tryexcept_visit_stmt, all_tries_stmt, List.filter_append,
        List.flatMap_append, tryexcept_filter_stmts c o body,
        tryexcept_filter_stmts c o orelse]
  | .whileStmt _ body orelse => by
      simp only [tryexcept_visit_stmt, all_tries_stmt, List.filter_append,
        List.flatMap_append, tryexcept_filter_stmts c o body,
        tryexcept_filter_stmts c o orelse]
  | .forStmt _ _ body orelse => by
      simp only [tryexcept_visit_stmt, all_tries_stmt, List.filter_append,
        List.flatMap_append, tryexcept_filter_stmts c o body,
        tryexcept_filter_stmts c o orelse]
  | .withStmt _ body => by
      simpa only [tryexcept_visit_stmt, all_tries_stmt] using
        tryexcept_filter_stmts c o body
  | .assign _ _ => by simp [tryexcept_visit_stmt, all_tries_stmt]
  | .annAssign _ _ _ => by simp [tryexcept_visit_stmt, all_tries_stmt]
  | .exprStmt _ => by simp [tryexcept_visit_stmt, all_tries_stmt]
  | .ret _ => by simp [tryexcept_visit_stmt, all_tries_stmt]
  | .pass => by simp [tryexcept_visit_stmt, all_tries_stmt]
termination_by structural s => s

theorem tryexcept_filter_stmts (c : Constants) (o : Options) :
    ∀ ss : List Stmt, (tryexcept_visit_stmts c o ss).filter
        Violation.isExceptExceptions =
      (all_tries_stmts ss).flatMap fun t =>
        check_exceptions_count o t.handlersOf
  | [] => by simp [tryexcept_visit_stmts, all_tries_stmts]
  | s :: ss => by
      simp only [tryexcept_visit_stmts, all_tries_stmts, List.filter_append,
        List.flatMap_append, tryexcept_filter_stmt c o s,
        tryexcept_filter_stmts c o ss]
termination_by structural l => l

theorem tryexcept_filter_handlers (c : Constants) (o : Options) :
    ∀ hs : List Handler, (tryexcept_visit_handlers c o hs).filter
        Violation.isExceptExceptions =
      (all_tries_handlers hs).flatMap fun t =>
        check_exceptions_count o t.handlersOf
  | [] => by simp [tryexcept_visit_handlers, all_tries_handlers]
  | (t, b) :: hs => by
      simp only [tryexcept_visit_handlers, all_tries_handlers,
        List.filter_append, List.flatMap_append,
        tryexcept_filter_stmts c o b, tryexcept_filter_handlers c o hs]
termination_by structural l => l

end

/-- C8: over a whole tree, the `TooManyExceptExceptionsViolation` records
produced by the `TryExceptVisitor` are exactly one per handler whose `type`
expression is literally a tuple with more than `max_except_exceptions`
elements, anchored at that handler and carrying the element count; a
handler with an absent or non-tuple `type` expression never produces this
violation. -/
theorem except_exceptions_tuple_only (c : Constants) (o : Options)
    (tree : List Stmt) :
    ((tryexcept_visit_stmts c o tree).filter Violation.isExceptExceptions =
      (all_tries_stmts tree).flatMap fun t =>
        t.handlersOf.filterMap fun h =>
          match h.1 with
          | some (.tuple elts) =>
              if elts.length > o.max_except_exceptions then
                some (Violation.tooManyExceptExceptions h elts.length)
              else none
          | _ => none) ∧
    (∀ h : Handler, h.typeIsTuple = false →
      check_exceptions_count o [h] = []) := by
  constructor
  · rw [tryexcept_filter_stmts c o tree]
    simp only [check_exceptions_count_eq]
  · intro h hshape
    obtain ⟨t, b⟩ := h
    simp only [check_exceptions_count, List.append_nil]
    cases t with
    | none => rfl
    | some e =>
        cases e <;> simp_all [Handler.typeIsTuple, check_exceptions_count]

/-- Witness for C8 at a concrete tree: a `try` statement with one
three-exception tuple handler, one single-name handler and one bare
handler, under `max_except_exceptions = 2`, yields exactly one violation,
anchored at the tuple handler; and a non-tuple handler alone yields none. -/
theorem except_exceptions_tuple_only_witness :
    (tryexcept_visit_stmts ⟨4, 2, 3, 3⟩
        ⟨5, 7, 10, 10, 2⟩
        [.tryStmt [.pass]
          [(some (.tuple [.name "A", .name "B", .name "C"]), [.pass]),
           (some (.name "D"), [.pass]),
           (none, [.pass])]
          [] []]).filter Violation.isExceptExceptions =
      [Violation.tooManyExceptExceptions
        (some (.tuple [.name "A", .name "B", .name "C"]), [.pass]) 3] ∧
    check_exceptions_count ⟨5, 7, 10, 10, 2⟩ [(some (.name "D"), [.pass])] =
      [] := by
  constructor
  · rw [(except_exceptions_tuple_only ⟨4, 2, 3, 3⟩ ⟨5, 7, 10, 10, 2⟩
      [.tryStmt [.pass]
        [(some (.tuple [.name "A", .name "B", .name "C"]), [.pass]),
         (some (.name "D"), [.pass]),
         (none, [.pass])]
        [] []]).1]
    rfl
  · exact (except_exceptions_tuple_only ⟨4, 2, 3, 3⟩
      ⟨5, 7, 10, 10, 2⟩ []).2 (some (.name "D"), [.pass]) rfl

/-! ## Theorems for the claims about `ConditionsVisitor` -/

/-- C5: for every chained comparison node, if all operators are `==` or all
operators are `!=`, the violation threshold on the operator count is
`MAX_COMPARES + 1`; for a chain mixing operator kinds the threshold is
`MAX_COMPARES` itself, so an equality-only (or inequality-only) chain is
permitted one more comparison step than a mixed chain of the same length
before `TooLongCompareViolation` is emitted. -/
theorem compare_chain_equality_threshold (MAX_COMPARES : Nat) (left : Expr)
    (ops : List CmpOp) (comparators : List Expr) :
    ((ops.all CmpOp.isEq = true ∨ ops.all CmpOp.isNotEq = true) →
      (check_compares MAX_COMPARES (.compare left ops comparators) =
          some (.tooLongCompare (.compare left ops comparators) ops.length) ↔
        MAX_COMPARES + 1 < ops.length)) ∧
    ((ops.all CmpOp.isEq = false ∧ ops.all CmpOp.isNotEq = false) →
      (check_compares MAX_COMPARES (.compare left ops comparators) =
          some (.tooLongCompare (.compare left ops comparators) ops.length) ↔
        MAX_COMPARES < ops.length)) := by
  constructor
  · rintro (h | h) <;>
    · simp only [check_compares, h]
      split <;> rename_i hif <;> simp_all <;> omega
  · rintro ⟨h₁, h₂⟩
    simp only [check_compares, h₁, h₂]
    split <;> rename_i hif <;> simp_all

/-- Witness for C5 at concrete inputs: with `MAX_COMPARES = 1`, the
equality-only chain `a == b == c == d` (3 operators) is flagged, carrying
the operator count. -/
theorem compare_chain_equality_threshold_witness :
    check_compares 1 (.compare (.name "a") [.eq, .eq, .eq]
        [.name "b", .name "c", .name "d"]) =
      some (.tooLongCompare (.compare (.name "a") [.eq, .eq, .eq]
        [.name "b", .name "c", .name "d"]) 3) :=
  ((compare_chain_equality_threshold 1 (.name "a") [.eq, .eq, .eq]
      [.name "b", .name "c", .name "d"]).1 (Or.inl (by decide))).mpr
    (by decide)

/-- C6 counterexample: on `a and (b or c)` the source's count recurses into
the differently-kinded nested combination and yields `3`, while the claim's
same-kind-only counting yields `2`; with `MAX_CONDITIONS = 2` the rule
emits a violation even though the claim's count does not exceed the
constant. -/
theorem conditions_count_kind_counterexample :
    count_conditions (.boolOp .bAnd
        [.name "a", .boolOp .bOr [.name "b", .name "c"]]) = 3 ∧
    count_conditions_same_kind .bAnd
        [.name "a", .boolOp .bOr [.name "b", .name "c"]] = 2 ∧
    check_conditions 2 (.boolOp .bAnd
        [.name "a", .boolOp .bOr [.name "b", .name "c"]]) =
      some (.tooManyConditions (.boolOp .bAnd
        [.name "a", .boolOp .bOr [.name "b", .name "c"]]) 3) ∧
    ¬ ((2 : Nat) > 2) := by
  refine ⟨rfl, rfl, rfl, by decide⟩

/-- C6 (amended): the boolean-conditions rule counts the flattened leaf
operands by recursing into every nested boolean combination regardless of
kind (a leaf operand contributes one unit), and emits a violation anchored
at the node, carrying the count, exactly when the count exceeds
`MAX_CONDITIONS`. -/
theorem conditions_count_amended (MAX_CONDITIONS : Nat) (kind : BoolOpKind)
    (values : List Expr) :
    (check_conditions MAX_CONDITIONS (.boolOp kind values) =
        some (.tooManyConditions (.boolOp kind values)
          (count_conditions_values values)) ↔
      MAX_CONDITIONS < count_conditions_values values) ∧
    (∀ (kind' : BoolOpKind) (inner rest : List Expr),
      count_conditions_values (.boolOp kind' inner :: rest) =
        count_conditions_values inner + count_conditions_values rest) ∧
    (∀ (leaf : Expr) (rest : List Expr), leaf.isBoolOp = false →
      count_conditions_values (leaf :: rest) =
        1 + count_conditions_values rest) := by
  refine ⟨?_, ?_, ?_⟩
  · simp only [check_conditions, count_conditions, Expr.values]
    split <;> rename_i hif <;> simp_all
  · intro kind' inner rest
    simp [count_conditions_values, count_condition]
  · intro leaf rest hleaf
    cases leaf <;>
      simp_all [count_conditions_values, count_condition, Expr.isBoolOp]

/-- Witness for C6 (amended) at concrete inputs: with `MAX_CONDITIONS = 2`,
the four-leaf combination `a or b or (c and d)` is flagged with count `4`,
and a non-combination leaf contributes one unit. -/
theorem conditions_count_amended_witness :
    check_conditions 2 (.boolOp .bOr
        [.name "a", .name "b", .boolOp .bAnd [.name "c", .name "d"]]) =
      some (.tooManyConditions (.boolOp .bOr
        [.name "a", .name "b", .boolOp .bAnd [.name "c", .name "d"]]) 4) ∧
    count_conditions_values [Expr.name "x"] = 1 := by
  have h := conditions_count_amended 2 .bOr
    [.name "a", .name "b", .boolOp .bAnd [.name "c", .name "d"]]
  exact ⟨h.1.mpr (by decide), by
    have h1 := h.2.2 (Expr.name "x") [] (by decide)
    simpa using h1⟩

end StyleGuide
